import Mathlib

/-!
# Verification of the MobaXterm license-key generator core

Shallow embedding of the `LicenseGenerator` class of `src/mkg.py`:
the variant-Base64 table and encoder, the running-key XOR cipher, the
license record formatter and the public `generate` entry point.

Python bytes are modelled as `List Nat` (each element a byte value),
Python's unbounded `int` as `Nat`, and the `KeyError` raised by an
unknown dictionary key as `Option.none`.  The encoder's output (ASCII
bytes in the source, returned through `.decode('ascii')`) is modelled
directly as `List Char` / `String` since every emitted symbol is a
single-byte ASCII character of the table.
-/

/-- The 65-character table `_VARIANT_BASE64_TABLE` of `src/mkg.py` line 18:
64 data symbols followed by the padding symbol `=`. -/
def VARIANT_BASE64_TABLE : String :=
  "ABCDEFGHIJKLMNOPQRSTUVWXYZabcdefghijklmnopqrstuvwxyz0123456789+/="

/-- `_get_base64_dict` (lines 20-23) builds the dictionary `{i : table[i]}`
for `i < 65`; a lookup is indexing into the table.  The default `'?'` is a
sentinel outside the table standing for the `KeyError` a missing key would
raise in Python; every index actually used by the encoder is `< 64`. -/
def base64_dict (i : Nat) : Char :=
  VARIANT_BASE64_TABLE.data.getD i '?'

/-- The closed `LICENSE_TYPES` dictionary (lines 25-29). -/
def LICENSE_TYPES : List (String × Nat) :=
  [("Professional", 1), ("Educational", 3), ("Personal", 4)]

/-- `LICENSE_TYPES[license_type]` (line 84): Python dictionary subscripting,
which raises `KeyError` (here `none`) when the key is absent. -/
def lookupLicenseType (license_type : String) : Option Nat :=
  (LICENSE_TYPES.find? (fun p => p.1 == license_type)).map (fun p => p.2)

/-- The key-register update on line 72: `key = (encrypted & key) | 0x482D`. -/
def keyUpdate (encrypted key : Nat) : Nat :=
  (encrypted &&& key) ||| 0x482D

/-- `_encrypt_bytes` (lines 65-73): the running-key XOR stream cipher.
Each loop iteration emits `b ^ ((key >> 8) & 0xff)` and then updates the
key register from the emitted byte and the pre-update key. -/
def encrypt_bytes (key : Nat) (bs : List Nat) : List Nat :=
  match bs with
  | [] => []
  | b :: rest =>
    let encrypted := b ^^^ ((key >>> 8) &&& 0xff)
    encrypted :: encrypt_bytes (keyUpdate encrypted key) rest

/-- The value of the loop variable `key` of `_encrypt_bytes` after the
whole input has been processed (the register is call-local in the source
and discarded at the end; this definition makes its final value visible
so that properties about the register can be stated). -/
def final_key (key : Nat) : List Nat → Nat
  | [] => key
  | b :: rest => final_key (keyUpdate (b ^^^ ((key >>> 8) &&& 0xff)) key) rest

/-- The body of the `for` loop of `_variant_base64_encode` (lines 40-48):
the `i`-th full 3-byte group of `bs` packed little-endian and emitted as
four 6-bit symbols.  `List.getD _ _ 0` models Python's `bs[i]`; every
index used is in range, so the default is never consulted. -/
def encodeBlock (bs : List Nat) (i : Nat) : List Char :=
  let coding_int :=
    bs.getD (3 * i) 0 ||| (bs.getD (3 * i + 1) 0 <<< 8) ||| (bs.getD (3 * i + 2) 0 <<< 16)
  [base64_dict (coding_int &&& 0x3f),
   base64_dict ((coding_int >>> 6) &&& 0x3f),
   base64_dict ((coding_int >>> 12) &&& 0x3f),
   base64_dict ((coding_int >>> 18) &&& 0x3f)]

/-- `_variant_base64_encode` (lines 31-63): `blocks_count = len // 3` full
3-byte groups are encoded by the indexed `for` loop, then the tail of
`left_bytes = len % 3` remaining bytes is encoded without padding. -/
def variant_base64_encode (bs : List Nat) : List Char :=
  let blocks_count := bs.length / 3
  let left_bytes := bs.length % 3
  let result := (List.range blocks_count).foldl (fun result i => result ++ encodeBlock bs i) []
  if left_bytes = 1 then
    let coding_int := bs.getD (3 * blocks_count) 0
    result ++ [base64_dict (coding_int &&& 0x3f), base64_dict ((coding_int >>> 6) &&& 0x3f)]
  else if left_bytes = 2 then
    let coding_int := bs.getD (3 * blocks_count) 0 ||| (bs.getD (3 * blocks_count + 1) 0 <<< 8)
    result ++
      [base64_dict (coding_int &&& 0x3f),
       base64_dict ((coding_int >>> 6) &&& 0x3f),
       base64_dict ((coding_int >>> 12) &&& 0x3f)]
  else result

/-- UTF-8 encoding of one scalar value, as performed by Python's
`str.encode('utf-8')` on line 87. -/
def utf8EncodeChar (c : Char) : List Nat :=
  let v := c.toNat
  if v < 0x80 then [v]
  else if v < 0x800 then
    [0xC0 ||| (v >>> 6), 0x80 ||| (v &&& 0x3F)]
  else if v < 0x10000 then
    [0xE0 ||| (v >>> 12), 0x80 ||| ((v >>> 6) &&& 0x3F), 0x80 ||| (v &&& 0x3F)]
  else
    [0xF0 ||| (v >>> 18), 0x80 ||| ((v >>> 12) &&& 0x3F),
     0x80 ||| ((v >>> 6) &&& 0x3F), 0x80 ||| (v &&& 0x3F)]

/-- `license_str.encode('utf-8')` (line 87): the record string as a byte list. -/
def encodeUtf8 (s : String) : List Nat :=
  (s.data.map utf8EncodeChar).flatten

/-- The f-string on line 85 building the plaintext license record. -/
def license_str (license_type_code : Nat) (username : String)
    (user_count major_version minor_version : Nat) : String :=
  s!"{license_type_code}#{username}|{major_version}{minor_version}#{user_count}#{major_version}3{minor_version}6{minor_version}#0#0#0#"

/-- `LicenseGenerator.generate` (lines 75-91): look up the license-type
code (raising, i.e. `none`, on an unknown kind), build the record, encode
it to UTF-8 bytes, run the cipher from key `0x787`, variant-Base64 encode
the result and return it as a string. -/
def generate (license_type username : String)
    (user_count major_version minor_version : Nat) : Option String :=
  match lookupLicenseType license_type with
  | none => none
  | some license_type_code =>
    let bs := encodeUtf8 (license_str license_type_code username user_count major_version minor_version)
    let encrypted_bs := encrypt_bytes 0x787 bs
    some (String.mk (variant_base64_encode encrypted_bs))

/-!
## Spec-side definitions

These definitions follow the wording of the specification (not the
source); they exist to be compared with the embedded source functions.
-/

/-- The 64 data symbols of the encoder's alphabet as the spec describes
them (§4.3): `A-Z a-z 0-9 + /` in that concatenation order. -/
def dataSymbols : List Char :=
  "ABCDEFGHIJKLMNOPQRSTUVWXYZabcdefghijklmnopqrstuvwxyz0123456789+/".data

/-- One step of the cipher fold as the spec words it (§4.2): from the
pair (key register, output so far) and the next byte, emit
`out = b XOR ((key >> 8) AND 0xFF)` and update the register to
`(out AND key_before_update) OR 0x482D`. -/
def cipher_fold_step (st : Nat × List Nat) (b : Nat) : Nat × List Nat :=
  let out := b ^^^ ((st.1 >>> 8) &&& 0xff)
  ((out &&& st.1) ||| 0x482D, st.2 ++ [out])

/-- The cipher as the spec words it: a fold over the input bytes starting
with key `0x787` and an empty output. -/
def cipher_fold (bs : List Nat) : List Nat :=
  (bs.foldl cipher_fold_step (0x787, [])).2

/-- The encoder as the spec words it (§4.3): consecutive groups of 3
bytes become a 24-bit little-endian integer emitted as four 6-bit
symbols; a 1-byte tail emits two symbols and a 2-byte tail three, with
no padding. -/
def spec_encode : List Nat → List Char
  | b0 :: b1 :: b2 :: rest =>
    let v := b0 ||| (b1 <<< 8) ||| (b2 <<< 16)
    base64_dict (v &&& 0x3f) :: base64_dict ((v >>> 6) &&& 0x3f) ::
      base64_dict ((v >>> 12) &&& 0x3f) :: base64_dict ((v >>> 18) &&& 0x3f) ::
      spec_encode rest
  | [b0] =>
    [base64_dict (b0 &&& 0x3f), base64_dict ((b0 >>> 6) &&& 0x3f)]
  | [b0, b1] =>
    let v := b0 ||| (b1 <<< 8)
    [base64_dict (v &&& 0x3f), base64_dict ((v >>> 6) &&& 0x3f),
     base64_dict ((v >>> 12) &&& 0x3f)]
  | [] => []

/-!
## Helper lemmas
-/

theorem foldl_append_eq_flatten {α β : Type} (f : α → List β) (l : List α) (acc : List β) :
    l.foldl (fun r x => r ++ f x) acc = acc ++ (l.map f).flatten := by
  induction l generalizing acc with
  | nil => simp
  | cons x xs ih => simp [ih]

theorem getD_cons3 (b0 b1 b2 d : Nat) (rest : List Nat) (n : Nat) :
    (b0 :: b1 :: b2 :: rest).getD (n + 3) d = rest.getD n d := rfl

theorem encodeBlock_shift (b0 b1 b2 : Nat) (rest : List Nat) (i : Nat) :
    encodeBlock (b0 :: b1 :: b2 :: rest) (i + 1) = encodeBlock rest i := by
  simp only [encodeBlock]
  rw [show 3 * (i + 1) = 3 * i + 3 by omega,
      show 3 * i + 3 + 1 = (3 * i + 1) + 3 by omega,
      show 3 * i + 3 + 2 = (3 * i + 2) + 3 by omega,
      getD_cons3, getD_cons3, getD_cons3]

theorem encodeBlock_zero (b0 b1 b2 : Nat) (rest : List Nat) :
    encodeBlock (b0 :: b1 :: b2 :: rest) 0 =
      (let v := b0 ||| (b1 <<< 8) ||| (b2 <<< 16)
       [base64_dict (v &&& 0x3f), base64_dict ((v >>> 6) &&& 0x3f),
        base64_dict ((v >>> 12) &&& 0x3f), base64_dict ((v >>> 18) &&& 0x3f)]) := rfl

/-- Peeling one full 3-byte block off the front of the encoder. -/
theorem variant_base64_encode_cons3 (b0 b1 b2 : Nat) (rest : List Nat) :
    variant_base64_encode (b0 :: b1 :: b2 :: rest) =
      encodeBlock (b0 :: b1 :: b2 :: rest) 0 ++ variant_base64_encode rest := by
  have hlen : (b0 :: b1 :: b2 :: rest).length = rest.length + 3 := by
    simp
  have hdiv : (rest.length + 3) / 3 = rest.length / 3 + 1 := Nat.add_div_right _ (by omega)
  have hmod : (rest.length + 3) % 3 = rest.length % 3 := Nat.add_mod_right _ _
  have hmain : ∀ k : Nat,
      (List.range (k + 1)).foldl
        (fun result i => result ++ encodeBlock (b0 :: b1 :: b2 :: rest) i) [] =
      encodeBlock (b0 :: b1 :: b2 :: rest) 0 ++
        (List.range k).foldl (fun result i => result ++ encodeBlock rest i) [] := by
    intro k
    rw [List.range_succ_eq_map, List.foldl_cons, foldl_append_eq_flatten,
        foldl_append_eq_flatten, List.map_map]
    have : (List.range k).map ((fun i => encodeBlock (b0 :: b1 :: b2 :: rest) i) ∘ Nat.succ) =
        (List.range k).map (fun i => encodeBlock rest i) := by
      refine List.map_congr_left ?_
      intro i _
      exact encodeBlock_shift b0 b1 b2 rest i
    rw [this]
    simp
  simp only [variant_base64_encode, hlen, hdiv, hmod, hmain]
  rcases h3 : rest.length % 3 with _ | r
  · simp [h3, List.append_assoc]
  · rcases r with _ | r
    · have hi0 : 3 * (rest.length / 3 + 1) = 3 * (rest.length / 3) + 3 := by omega
      have hi1 : 3 * (rest.length / 3) + 3 + 1 = (3 * (rest.length / 3) + 1) + 3 := by omega
      simp only [hi0, hi1, getD_cons3, List.append_assoc]
      simp
    · rcases r with _ | r
      · have hi0 : 3 * (rest.length / 3 + 1) = 3 * (rest.length / 3) + 3 := by omega
        have hi1 : 3 * (rest.length / 3) + 3 + 1 = (3 * (rest.length / 3) + 1) + 3 := by omega
        simp only [hi0, hi1, getD_cons3, List.append_assoc]
        simp
      · exact absurd h3 (by omega)

/-- The indexed-loop encoder agrees with the chunk-recursive description. -/
theorem encode_eq_spec_encode (bs : List Nat) : variant_base64_encode bs = spec_encode bs := by
  induction bs using spec_encode.induct with
  | case1 b0 b1 b2 rest ih =>
    rw [variant_base64_encode_cons3, ih, encodeBlock_zero, spec_encode]
    rfl
  | case2 b0 => simp [variant_base64_encode, spec_encode]
  | case3 b0 b1 => simp [variant_base64_encode, spec_encode]
  | case4 => simp [variant_base64_encode, spec_encode]

/-- Length of the chunk-recursive encoder. -/
theorem spec_encode_length (bs : List Nat) :
    (spec_encode bs).length =
      4 * (bs.length / 3) +
        (if bs.length % 3 = 0 then 0 else if bs.length % 3 = 1 then 2 else 3) := by
  induction bs using spec_encode.induct with
  | case1 b0 b1 b2 rest ih =>
    have hlen : (b0 :: b1 :: b2 :: rest).length = rest.length + 3 := by simp
    have hdiv : (rest.length + 3) / 3 = rest.length / 3 + 1 := Nat.add_div_right _ (by omega)
    have hmod : (rest.length + 3) % 3 = rest.length % 3 := Nat.add_mod_right _ _
    simp only [spec_encode, List.length_cons, ih, hlen, hdiv, hmod]
    omega
  | case2 b0 => simp [spec_encode]
  | case3 b0 b1 => simp [spec_encode]
  | case4 => simp [spec_encode]

/-- Symbols produced from a 6-bit index are data symbols and never `=`. -/
theorem base64_dict_and_mem (x : Nat) :
    base64_dict (x &&& 0x3f) ∈ dataSymbols ∧ base64_dict (x &&& 0x3f) ≠ '=' := by
  have hle : x &&& 0x3f ≤ 0x3f := Nat.and_le_right
  have h : ∀ i : Nat, i < 64 → base64_dict i ∈ dataSymbols ∧ base64_dict i ≠ '=' := by decide
  exact h _ (by omega)

/-- Every character emitted by the chunk-recursive encoder is a data symbol. -/
theorem spec_encode_alphabet (bs : List Nat) (c : Char) (hc : c ∈ spec_encode bs) :
    c ∈ dataSymbols ∧ c ≠ '=' := by
  induction bs using spec_encode.induct with
  | case1 b0 b1 b2 rest ih =>
    simp only [spec_encode, List.mem_cons] at hc
    rcases hc with h | h | h | h | h
    · exact h ▸ base64_dict_and_mem _
    · exact h ▸ base64_dict_and_mem _
    · exact h ▸ base64_dict_and_mem _
    · exact h ▸ base64_dict_and_mem _
    · exact ih h
  | case2 b0 =>
    simp only [spec_encode, List.mem_cons, List.not_mem_nil, or_false] at hc
    rcases hc with h | h <;> exact h ▸ base64_dict_and_mem _
  | case3 b0 b1 =>
    simp only [spec_encode, List.mem_cons, List.not_mem_nil, or_false] at hc
    rcases hc with h | h | h <;> exact h ▸ base64_dict_and_mem _
  | case4 => simp [spec_encode] at hc

/-- The cipher's output is as long as its input, for any starting key. -/
theorem encrypt_bytes_len (key : Nat) (bs : List Nat) :
    (encrypt_bytes key bs).length = bs.length := by
  induction bs generalizing key with
  | nil => simp [encrypt_bytes]
  | cons b rest ih => simp [encrypt_bytes, ih]

/-- The spec-side fold with explicit accumulator computes the cipher. -/
theorem foldl_cipher_step (bs : List Nat) :
    ∀ (key : Nat) (acc : List Nat),
      (bs.foldl cipher_fold_step (key, acc)).2 = acc ++ encrypt_bytes key bs := by
  induction bs with
  | nil => intro key acc; simp [encrypt_bytes]
  | cons b rest ih =>
    intro key acc
    simp only [List.foldl_cons, cipher_fold_step, encrypt_bytes, keyUpdate, ih]
    simp

set_option maxRecDepth 8192 in
/-- Every small-valued update lands in the `0x482D`-to-`0x48FF` band with
high byte `0x48`. -/
theorem or_482D_small : ∀ y : Nat, y < 256 →
    0x482D ≤ (y ||| 0x482D) ∧ (y ||| 0x482D) ≤ 0x48FF ∧
    (y ||| 0x482D) &&& 0x482D = 0x482D ∧ ((y ||| 0x482D) >>> 8) &&& 0xff = 0x48 := by
  decide

theorem keyUpdate_band (out key : Nat) (h : out < 256) :
    0x482D ≤ keyUpdate out key ∧ keyUpdate out key ≤ 0x48FF ∧
    keyUpdate out key &&& 0x482D = 0x482D ∧ (keyUpdate out key >>> 8) &&& 0xff = 0x48 := by
  have hy : out &&& key < 256 := Nat.lt_of_le_of_lt Nat.and_le_left h
  exact or_482D_small (out &&& key) hy

theorem xor_lt_256 {a b : Nat} (ha : a < 256) (hb : b < 256) : a ^^^ b < 256 :=
  Nat.xor_lt_two_pow (n := 8) ha hb

/-- Once the key's high byte is `0x48` it stays `0x48`, so the cipher
acts as a constant XOR with `0x48` on byte-valued input. -/
theorem encrypt_bytes_const_key (bs : List Nat) :
    ∀ key : Nat, (∀ x ∈ bs, x < 256) → (key >>> 8) &&& 0xff = 0x48 →
      encrypt_bytes key bs = bs.map (fun x => x ^^^ 0x48) := by
  induction bs with
  | nil => intro key _ _; simp [encrypt_bytes]
  | cons x rest ih =>
    intro key hmem hk
    have hx : x < 256 := hmem x (by simp)
    have hout : x ^^^ 0x48 < 256 := xor_lt_256 hx (by omega)
    simp only [encrypt_bytes, hk, List.map_cons]
    rw [ih (keyUpdate (x ^^^ 0x48) key) (fun y hy => hmem y (by simp [hy]))
        (keyUpdate_band (x ^^^ 0x48) key hout).2.2.2]

/-!
## The claims
-/

/-- C1: for every input byte sequence, the cipher `_encrypt_bytes` started
at key `0x787` equals the fold that starts with key `0x787`, emits
`out = b XOR ((key >> 8) AND 0xFF)` for each byte in order, and updates the
key to `(out AND key_before_update) OR 0x482D`. -/
theorem encrypt_bytes_eq_cipher_fold (bs : List Nat) :
    encrypt_bytes 0x787 bs = cipher_fold bs := by
  rw [cipher_fold, foldl_cipher_step]
  simp

/-- C2: the encoder processes consecutive groups of 3 bytes as a 24-bit
little-endian integer emitting four 6-bit symbols low-to-high, a 1-byte
tail emits exactly two symbols, a 2-byte tail exactly three, with no
padding appended: `_variant_base64_encode` equals the chunk-recursive
function `spec_encode` stating precisely that. -/
theorem variant_base64_encode_eq_spec (bs : List Nat) :
    variant_base64_encode bs = spec_encode bs :=
  encode_eq_spec_encode bs

/-- C4: for input of length `n` the encoder's output length is
`4*(n/3)` plus `0`, `2` or `3` according to `n % 3`, and is a multiple
of 4 only when `n % 3 = 0`. -/
theorem variant_base64_encode_length (bs : List Nat) :
    (variant_base64_encode bs).length =
      4 * (bs.length / 3) +
        (if bs.length % 3 = 0 then 0 else if bs.length % 3 = 1 then 2 else 3) ∧
    (4 ∣ (variant_base64_encode bs).length → bs.length % 3 = 0) := by
  have h := spec_encode_length bs
  rw [encode_eq_spec_encode, h]
  refine ⟨rfl, ?_⟩
  intro hdvd
  by_contra hne
  rcases (show bs.length % 3 = 1 ∨ bs.length % 3 = 2 from by omega) with h1 | h1 <;>
    rw [h1] at hdvd <;> simp at hdvd <;> omega

/-- C4 witness at the concrete input `[1, 2, 3]`. -/
theorem variant_base64_encode_length_witness :
    ([1, 2, 3] : List Nat).length % 3 = 0 :=
  (variant_base64_encode_length [1, 2, 3]).2 (by decide)

/-- C5: every character of any encoder output is one of the 64 data
symbols `A-Z a-z 0-9 + /` and the padding symbol `=` never appears. -/
theorem variant_base64_encode_alphabet (bs : List Nat) (c : Char)
    (hc : c ∈ variant_base64_encode bs) : c ∈ dataSymbols ∧ c ≠ '=' := by
  rw [encode_eq_spec_encode] at hc
  exact spec_encode_alphabet bs c hc

/-- C5 witness: the symbol emitted for the input `[0]`. -/
theorem variant_base64_encode_alphabet_witness :
    ('A' ∈ dataSymbols ∧ 'A' ≠ '=') :=
  variant_base64_encode_alphabet [0] 'A' (by decide)

/-- C6: the cipher's output length equals its input length for every key
and input; on empty input it produces empty output and leaves the key
register at its initial value (and, being a total function, raises no
error). -/
theorem encrypt_bytes_length_empty (key : Nat) (bs : List Nat) :
    (encrypt_bytes key bs).length = bs.length ∧
    encrypt_bytes key [] = [] ∧ final_key key [] = key :=
  ⟨encrypt_bytes_len key bs, rfl, rfl⟩

/-- C10: after any key update on byte-valued data the key register lies in
the band `[0x482D, 0x48FF]`, keeps every bit of `0x482D` set, and has high
byte `0x48`; consequently on non-empty byte input the stateful cipher from
key `0x787` is the memoryless transform XORing the first byte with `0x07`
and every later byte with `0x48`. -/
theorem cipher_memoryless (b : Nat) (bs : List Nat)
    (hb : b < 256) (hbs : ∀ x ∈ bs, x < 256) :
    (∀ out key : Nat, out < 256 →
      0x482D ≤ keyUpdate out key ∧ keyUpdate out key ≤ 0x48FF ∧
      keyUpdate out key &&& 0x482D = 0x482D ∧
      (keyUpdate out key >>> 8) &&& 0xff = 0x48) ∧
    encrypt_bytes 0x787 (b :: bs) = (b ^^^ 0x07) :: bs.map (fun x => x ^^^ 0x48) := by
  refine ⟨fun out key h => keyUpdate_band out key h, ?_⟩
  have h7 : ((0x787 : Nat) >>> 8) &&& 0xff = 0x07 := by decide
  have hout : b ^^^ 0x07 < 256 := xor_lt_256 hb (by omega)
  simp only [encrypt_bytes, h7]
  rw [encrypt_bytes_const_key bs (keyUpdate (b ^^^ 0x07) 0x787) hbs
      (keyUpdate_band (b ^^^ 0x07) 0x787 hout).2.2.2]

/-- C10 witness at the concrete input `0x41 :: [0x42, 0x43]`. -/
theorem cipher_memoryless_witness :
    encrypt_bytes 0x787 [0x41, 0x42, 0x43] = [0x46, 0x0A, 0x0B] := by
  have h := cipher_memoryless 0x41 [0x42, 0x43] (by decide) (by decide)
  simpa using h.2

theorem lookupLicenseType_unknown (kind : String)
    (h1 : kind ≠ "Professional") (h2 : kind ≠ "Educational") (h3 : kind ≠ "Personal") :
    lookupLicenseType kind = none := by
  have e1 : (("Professional" : String) == kind) = false := beq_eq_false_iff_ne.mpr (Ne.symm h1)
  have e2 : (("Educational" : String) == kind) = false := beq_eq_false_iff_ne.mpr (Ne.symm h2)
  have e3 : (("Personal" : String) == kind) = false := beq_eq_false_iff_ne.mpr (Ne.symm h3)
  simp [lookupLicenseType, LICENSE_TYPES, List.find?, e1, e2, e3]

/-- C3 counterexample: the record `generate("Professional", "BroVnature",
99, 25, 4)` builds is not `1#BroVnature|254#99#25346#0#0#0#` — the
template `{major}3{minor}6{minor}` applied to major 25 and minor 4 ends in
`253464`, not `25346` (which drops the final `{minor}`). -/
theorem record_example_counterexample :
    license_str 1 "BroVnature" 99 25 4 ≠ "1#BroVnature|254#99#25346#0#0#0#" := by
  decide

/-- C3 (amended): the kind-code mapping is the closed enumeration
Professional→1, Educational→3, Personal→4, the record is the template
`{kindCode}#{username}|{major}{minor}#{seatCount}#{major}3{minor}6{minor}#0#0#0#`
with the username inserted verbatim, and the Professional/BroVnature/99/25/4
record is `1#BroVnature|254#99#253464#0#0#0#`. -/
theorem generate_record_template :
    (lookupLicenseType "Professional" = some 1 ∧
     lookupLicenseType "Educational" = some 3 ∧
     lookupLicenseType "Personal" = some 4) ∧
    (∀ (code : Nat) (username : String) (c m v : Nat),
      license_str code username c m v =
        toString code ++ "#" ++ username ++ "|" ++ toString m ++ toString v ++ "#" ++
        toString c ++ "#" ++ toString m ++ "3" ++ toString v ++ "6" ++ toString v ++
        "#0#0#0#") ∧
    license_str 1 "BroVnature" 99 25 4 = "1#BroVnature|254#99#253464#0#0#0#" := by
  refine ⟨by decide, ?_, by decide⟩
  intro code username c m v
  have hs : ∀ s : String, toString s = s := fun s => rfl
  simp [license_str, String.append_assoc, hs, String.empty_append]

/-- C7: calling `generate` with a kind outside the closed enumeration
fails (the dictionary lookup on its first line raises `KeyError`, here
`none`) with no partial work and no silent default. -/
theorem generate_unknown_kind_none (kind username : String) (c m v : Nat)
    (h1 : kind ≠ "Professional") (h2 : kind ≠ "Educational") (h3 : kind ≠ "Personal") :
    generate kind username c m v = none := by
  unfold generate
  rw [lookupLicenseType_unknown kind h1 h2 h3]

/-- C7 witness at the concrete unknown kind `Enterprise`. -/
theorem generate_unknown_kind_none_witness :
    generate "Enterprise" "user" 1 25 4 = none :=
  generate_unknown_kind_none "Enterprise" "user" 1 25 4
    (by decide) (by decide) (by decide)

/-- C8: `generate` returns a string exactly for the three recognized
kinds; the cipher and encoder are total, so the unrecognized-kind lookup
is its only failure. -/
theorem generate_some_iff_known_kind (kind username : String) (c m v : Nat) :
    (∃ s, generate kind username c m v = some s) ↔
      (kind = "Professional" ∨ kind = "Educational" ∨ kind = "Personal") := by
  constructor
  · rintro ⟨s, hs⟩
    by_contra hcon
    push_neg at hcon
    have hnone := lookupLicenseType_unknown kind hcon.1 hcon.2.1 hcon.2.2
    unfold generate at hs
    rw [hnone] at hs
    exact Option.noConfusion hs
  · rintro (h | h | h) <;> subst h <;> exact ⟨_, rfl⟩

/-- C8 witness: the Professional call succeeds, placing `Professional`
among the recognized kinds. -/
theorem generate_some_iff_known_kind_witness :
    ("Professional" : String) = "Professional" ∨
      ("Professional" : String) = "Educational" ∨
      ("Professional" : String) = "Personal" :=
  (generate_some_iff_known_kind "Professional" "BroVnature" 99 25 4).mp
    ⟨"2smC6ciHmkCP9oTL0oXf8tWcxtme9tHf+x3a4tGerh3a", by decide⟩

/-- C9: `generate` is deterministic — two calls with identical arguments
yield identical output strings. -/
theorem generate_deterministic (kind username : String) (c m v : Nat) (s1 s2 : String)
    (h1 : generate kind username c m v = some s1)
    (h2 : generate kind username c m v = some s2) : s1 = s2 := by
  rw [h1] at h2
  exact Option.some.inj h2

/-- C9 witness at the concrete Professional/BroVnature/99/25/4 call. -/
theorem generate_deterministic_witness :
    ("2smC6ciHmkCP9oTL0oXf8tWcxtme9tHf+x3a4tGerh3a" : String) =
      "2smC6ciHmkCP9oTL0oXf8tWcxtme9tHf+x3a4tGerh3a" :=
  generate_deterministic "Professional" "BroVnature" 99 25 4 _ _ (by decide) (by decide)
